import Mathlib

/-!
Shallow embedding of the live-telemetry reconciliation core of the
PakistaRailway-Web repository (src/services/liveData.ts,
src/services/dataLoader.ts, the zustand store in the main module) together
with theorems settling the frozen claims about it.

Modelling conventions:
* JavaScript numbers are modelled by `JsNum`: either a finite rational
  (`JsNum.fin`) or a non-finite value (`JsNum.nan`, standing for `NaN` and
  `±Infinity`, which this code base never distinguishes: every use is behind
  an `isFinite` test, a falsiness test, or a strict comparison with a finite
  number coming from the JSON-decoded static dataset).
* Values typed `number | null` (respectively `string | null`,
  `T[] | undefined`, …) are modelled as `Option`s; `none` is `null`
  or `undefined`.
* `Number(string)` is modelled by `jsNumber`, covering the decimal literal
  forms (optional sign, integer part, fraction part, surrounding white
  space, the empty string parsing to `0`); the exotic literal forms
  (hexadecimal, exponents, `"Infinity"`) are mapped to `JsNum.nan`.  No
  claim depends on which strings are parseable, only on how the parse
  result is used.
* Static-dataset numbers (ids, train numbers, order numbers, day counts)
  are plain rationals: they come from JSON, which cannot encode non-finite
  numbers.
-/

/-- A JavaScript number: either a finite value or a non-finite one
(`NaN`/`±Infinity`, collapsed — see the module conventions). -/
inductive JsNum where
  | nan : JsNum
  | fin : ℚ → JsNum
deriving DecidableEq, Repr

/-- `Number.isFinite`. -/
def JsNum.isFinite : JsNum → Bool
  | .nan => false
  | .fin _ => true

/-- The finite value of a `JsNum` (`0` for non-finite ones); used only to
compare timestamps that are known to be finite. -/
def JsNum.val : JsNum → ℚ
  | .nan => 0
  | .fin q => q

/-- Truthiness of a JS `number | null | undefined` value: `null`,
`undefined`, `NaN` and `0` are falsy. -/
def numTruthy : Option JsNum → Bool
  | none => false
  | some .nan => false
  | some (.fin q) => q != 0

/-- Truthiness of a JS `string | null | undefined` value: `null`,
`undefined` and the empty string are falsy. -/
def strTruthy : Option String → Bool
  | none => false
  | some s => s != ""

/-- Strict equality `x === q` between an optional JS number `x` and a finite
number `q` (from the static dataset).  `null`, `undefined` and `NaN` compare
unequal to everything. -/
def jsEqNum (a : Option JsNum) (q : ℚ) : Bool :=
  match a with
  | some (.fin x) => x = q
  | _ => false

/-- Digit list to natural number (the usual left fold). -/
def digitsToNat (cs : List Char) : ℕ :=
  cs.foldl (fun n c => n * 10 + (c.toNat - 48)) 0

/-- Unsigned decimal literal body: digits, optionally followed by `.` and
more digits (`"1"`, `"1."`, `".5"`, `"1.5"`); anything else is not a finite
decimal literal. -/
def jsNumberCore (cs : List Char) : Option ℚ :=
  let intPart := cs.takeWhile Char.isDigit
  let rest := cs.dropWhile Char.isDigit
  match rest with
  | [] => if intPart.isEmpty then none else some (digitsToNat intPart)
  | '.' :: frac =>
      if frac.all Char.isDigit && !(intPart.isEmpty && frac.isEmpty) then
        some ((digitsToNat intPart : ℚ) + (digitsToNat frac : ℚ) / (10 : ℚ) ^ frac.length)
      else none
  | _ => none

/-- Strip leading and trailing white space from a character list. -/
def trimChars (cs : List Char) : List Char :=
  ((cs.dropWhile Char.isWhitespace).reverse.dropWhile Char.isWhitespace).reverse

/-- Model of JavaScript `Number(string)` on the character list (see the
module conventions): surrounding white space is trimmed, the empty string
is `0`, an optional sign precedes a decimal literal, and every other string
is non-finite. -/
def jsNumberChars (cs0 : List Char) : JsNum :=
  let t := trimChars cs0
  if t.isEmpty then .fin 0
  else
    match t with
    | '-' :: cs => match jsNumberCore cs with
        | some q => .fin (-q)
        | none => .nan
    | '+' :: cs => match jsNumberCore cs with
        | some q => .fin q
        | none => .nan
    | cs => match jsNumberCore cs with
        | some q => .fin q
        | none => .nan

/-- Model of JavaScript `Number(string)`. -/
def jsNumber (s : String) : JsNum := jsNumberChars s.data

/-- `toLowerCase()`, modelled on the ASCII range (the identifiers this code
lowercases are ASCII). -/
def strToLower (s : String) : String := ⟨s.data.map Char.toLower⟩

/-- `Number(x)` for `x : string | undefined` (`Number(undefined)` is `NaN`). -/
def jsNumberOfField : Option String → JsNum
  | none => .nan
  | some s => jsNumber s

/-- Direction of a live train, per `parseDirection`. -/
inductive Direction where
  | up : Direction
  | down : Direction
  | unknown : Direction
deriving DecidableEq, Repr

/-- `parseDirection` from liveData.ts: substring matching on the lowercased
icon URL; `"up"` wins over `"down"`. -/
def listContainsSub : List Char → List Char → Bool
  | _, [] => true
  | [], _ :: _ => false
  | h :: t, sub => sub.isPrefixOf (h :: t) || listContainsSub t sub

/-- `a.includes(b)` on strings. -/
def strIncludes (hay sub : String) : Bool :=
  listContainsSub hay.data sub.data

def parseDirection (iconUrl : Option String) : Direction :=
  match iconUrl with
  | none => .unknown
  | some u =>
      if u = "" then .unknown
      else if strIncludes (strToLower u) "up" then .up
      else if strIncludes (strToLower u) "down" then .down
      else .unknown

/-- `parseBoolean` from liveData.ts. -/
def parseBoolean (value : Option String) : Bool :=
  match value with
  | none => false
  | some s => strToLower s = "true"

/-- `extractTrainNumberFromKey` from liveData.ts: strip a `"9900"` suffix
(or, failing that, an `"099900"` suffix) and parse the remainder, else parse
the whole key; non-finite parses become `null`. -/
def extractTrainNumberFromKey (value : Option String) : Option ℚ :=
  match value with
  | none => none
  | some v =>
      if v = "" then none
      else if List.isSuffixOf "9900".data v.data then
        match jsNumberChars (v.data.take (v.data.length - 4)) with
        | .fin q => some q
        | .nan => none
      else if List.isSuffixOf "099900".data v.data then
        match jsNumberChars (v.data.take (v.data.length - 6)) with
        | .fin q => some q
        | .nan => none
      else
        match jsNumberChars v.data with
        | .fin q => some q
        | .nan => none

/-- One stop of a static route (`TrainStop`); presentation-only fields
(latitude/longitude, Urdu names, …) that the reconciliation core never
reads are omitted. -/
structure TrainStop where
  StationId : ℚ
  StationName : String
  ArrivalTime : Option String
  DepartureTime : Option String
  DayCount : Option ℚ
  OrderNumber : ℚ
deriving DecidableEq, Repr

/-- A normalized telemetry sample (`LiveTrainDelta`).  Fields that the wire
can populate with a non-finite number (`lateBy`, `nextStationId`,
`prevStationId`, `speed`, `trainNumber`, `lastUpdated`) are `JsNum`s;
`lat`/`lon` are finite by construction (the normalizer discards the triple
otherwise). -/
structure LiveTrainDelta where
  id : String
  trainKey : String
  variantKey : String
  locomitiveNo : Option String
  lat : ℚ
  lon : ℚ
  lastUpdated : JsNum
  lateBy : Option JsNum
  nextStationId : Option JsNum
  nextStopName : Option String
  prevStationId : Option JsNum
  speed : Option JsNum
  trainNumber : Option JsNum
  dayNumber : Option ℚ
  isTrainStation : Bool
  isTrainStop : Bool
  isFlagged : Bool
  iconUrl : Option String
  statusCode : Option String
  direction : Direction
deriving DecidableEq, Repr

/-- The wire payload of one `(trainKey, variantKey)` pair
(`SocketTrainPayload`): all fields optional strings, plus the optional
pre-normalized numeric timestamp. -/
structure SocketTrainPayload where
  locomitiveNo : Option String := none
  lat : Option String := none
  lon : Option String := none
  last_updated : Option String := none
  late_by : Option String := none
  next_station : Option String := none
  next_stop : Option String := none
  prev_station : Option String := none
  sp : Option String := none
  isTrainStation : Option String := none
  isTrainStop : Option String := none
  isFlagged : Option String := none
  icon : Option String := none
  st : Option String := none
  last_updated_pre : Option JsNum := none
deriving DecidableEq, Repr

/-- `parseSocketPayload` from liveData.ts.  `now` is the ingestion time
(`Date.now()`).  Returns `none` exactly when the parsed latitude or
longitude is non-finite. -/
def parseSocketPayload (trainKey variantKey : String) (payload : SocketTrainPayload)
    (now : ℚ) : Option LiveTrainDelta :=
  let lat := jsNumberOfField payload.lat
  let lon := jsNumberOfField payload.lon
  match lat, lon with
  | .fin la, .fin lo =>
      let lastUpdated : JsNum :=
        match payload.last_updated_pre with
        | some v => v
        | none =>
            if strTruthy payload.last_updated then
              match jsNumberOfField payload.last_updated with
              | .fin q => .fin (q * 1000)
              | .nan => .nan
            else .fin now
      let speed : Option JsNum :=
        if strTruthy payload.sp then some (jsNumberOfField payload.sp) else none
      let trainNumber : Option ℚ :=
        match extractTrainNumberFromKey (some trainKey) with
        | some q => some q
        | none => extractTrainNumberFromKey (some variantKey)
      some {
        id := trainKey ++ ":" ++ variantKey
        trainKey := trainKey
        variantKey := variantKey
        locomitiveNo := payload.locomitiveNo
        lat := la
        lon := lo
        lastUpdated := lastUpdated
        lateBy := if strTruthy payload.late_by then some (jsNumberOfField payload.late_by) else none
        nextStationId := if strTruthy payload.next_station then some (jsNumberOfField payload.next_station) else none
        nextStopName := payload.next_stop
        prevStationId := if strTruthy payload.prev_station then some (jsNumberOfField payload.prev_station) else none
        speed := match speed with
          | some (.fin q) => some (.fin q)
          | _ => none
        trainNumber := match trainNumber with
          | some q => some (.fin q)
          | none => none
        dayNumber := none
        isTrainStation := parseBoolean payload.isTrainStation
        isTrainStop := parseBoolean payload.isTrainStop
        isFlagged := parseBoolean payload.isFlagged
        iconUrl := payload.icon
        statusCode := payload.st
        direction := parseDirection payload.icon
      }
  | _, _ => none

/-- A static train together with its route and live state
(`TrainWithRoute`); presentation-only fields are omitted. -/
structure TrainWithRoute where
  TrainId : ℚ
  TrainNumber : ℚ
  TrainName : String
  IsLive : Bool
  IsUp : Bool
  LocomotiveNumber : Option String
  AllocatedDate : Option String
  route : List TrainStop
  upcomingStop : Option TrainStop
  previousStop : Option TrainStop
  livePosition : Option LiveTrainDelta
  liveRuns : Option (List LiveTrainDelta)
  selectedRunId : Option String
deriving DecidableEq, Repr

/-- `findStopByStationId` from dataLoader.ts: falsy ids (`null`,
`undefined`, `0`, `NaN`) yield no stop, otherwise the first route stop with
a strictly-equal station id. -/
def findStopByStationId (route : List TrainStop) (stationId : Option JsNum) :
    Option TrainStop :=
  if numTruthy stationId then route.find? (fun stop => jsEqNum stationId stop.StationId)
  else none

/-- The candidate score computed inside `findMatchingTrainId` (liveData.ts
lines 119-171), factored out as a function of the train and the delta. -/
def scoreCandidate (train : TrainWithRoute) (delta : LiveTrainDelta) : ℚ :=
  let locoScore : ℚ :=
    if strTruthy delta.locomitiveNo && strTruthy train.LocomotiveNumber
        && (delta.locomitiveNo == train.LocomotiveNumber) then 10 else 0
  let nextStop := if numTruthy delta.nextStationId then
      findStopByStationId train.route delta.nextStationId else none
  let prevStop := if numTruthy delta.prevStationId then
      findStopByStationId train.route delta.prevStationId else none
  let nextScore : ℚ := if nextStop.isSome then 4 else 0
  let prevScore : ℚ := if prevStop.isSome then 4 else 0
  let orderScore : ℚ :=
    if nextStop.isSome && prevStop.isSome then
      match train.route.findIdx? (fun stop => jsEqNum delta.nextStationId stop.StationId),
            train.route.findIdx? (fun stop => jsEqNum delta.prevStationId stop.StationId) with
      | some nextIndex, some prevIndex => if prevIndex < nextIndex then 1 else 0
      | _, _ => 0
    else 0
  let directionScore : ℚ :=
    match delta.direction with
    | .unknown => 0
    | d => if train.IsUp = (d = Direction.up) then 1 else 0
  let nameScore : ℚ :=
    match delta.nextStopName with
    | none => 0
    | some nm =>
        if nm = "" then 0
        else if train.route.any (fun stop => strToLower stop.StationName == strToLower nm) then 1/2
        else if strIncludes (strToLower train.TrainName) (strToLower nm) then 1/4
        else 0
  locoScore + nextScore + prevScore + orderScore + directionScore + nameScore

/-- The train-number short-circuit of `findMatchingTrainId` (liveData.ts
lines 104-109): if the delta carries a finite train-number hint, the first
train whose `TrainNumber` strictly equals it. -/
def numberMatch (trains : List TrainWithRoute) (delta : LiveTrainDelta) :
    Option TrainWithRoute :=
  match delta.trainNumber with
  | some (.fin n) => trains.find? (fun train => train.TrainNumber = n)
  | _ => none

/-- Descending comparison on the score component, modelling the comparator
`(a, b) => b.score - a.score` of the candidate sort (scores are always
finite). -/
def scoreGe (a b : TrainWithRoute × ℚ) : Prop := b.2 ≤ a.2

instance : DecidableRel scoreGe := fun a b => inferInstanceAs (Decidable (b.2 ≤ a.2))

instance : IsTotal (TrainWithRoute × ℚ) scoreGe := ⟨fun a b => le_total b.2 a.2⟩

instance : IsTrans (TrainWithRoute × ℚ) scoreGe :=
  ⟨fun _ _ _ h1 h2 => le_trans h2 h1⟩

/-- The scored candidate list of `findMatchingTrainId`: every train paired
with its score, candidates with non-positive score discarded. -/
def scoredList (trains : List TrainWithRoute) (delta : LiveTrainDelta) :
    List (TrainWithRoute × ℚ) :=
  (trains.map (fun train => (train, scoreCandidate train delta))).filter
    (fun c => 0 < c.2)

/-- `findMatchingTrainId` from liveData.ts: train-number short-circuit, then
additive scoring, discarding of non-positive candidates, stable descending
sort, ambiguity (tie) check and strict-dominance check. -/
def findMatchingTrainId (trains : List TrainWithRoute) (delta : LiveTrainDelta) :
    Option ℚ :=
  match numberMatch trains delta with
  | some t => some t.TrainId
  | none =>
      let scoredCandidates := scoredList trains delta
      if scoredCandidates.isEmpty then none
      else
        match List.insertionSort scoreGe scoredCandidates with
        | [] => none
        | best :: rest =>
            if best.2 ≤ 0 then none
            else
              let tied := (best :: rest).filter (fun c => c.2 = best.2)
              if 1 < tied.length then none
              else
                match rest with
                | second :: _ => if best.2 ≤ second.2 then none else some best.1.TrainId
                | [] => some best.1.TrainId

/-- `computeStopsForRun` from liveData.ts. -/
def computeStopsForRun (train : TrainWithRoute) (run : Option LiveTrainDelta) :
    Option TrainStop × Option TrainStop :=
  match run with
  | none => (none, none)
  | some r =>
      (if numTruthy r.nextStationId then findStopByStationId train.route r.nextStationId else none,
       if numTruthy r.prevStationId then findStopByStationId train.route r.prevStationId else none)

/-- `deriveDayNumber` from liveData.ts. -/
def deriveDayNumber (train : TrainWithRoute) (delta : LiveTrainDelta) : Option ℚ :=
  match (if numTruthy delta.nextStationId then
      findStopByStationId train.route delta.nextStationId else none) with
  | some upcomingStop => match upcomingStop.DayCount with
      | some d => some d
      | none => none
  | none =>
      match (if numTruthy delta.prevStationId then
          findStopByStationId train.route delta.prevStationId else none) with
      | some previousStop => match previousStop.DayCount with
          | some d => some d
          | none => none
      | none => delta.dayNumber

/-- Descending comparison on `lastUpdated`, modelling the run-sort
comparator `(a, b) => b.lastUpdated - a.lastUpdated`; a comparison against a
non-finite timestamp evaluates to `NaN`, which `Array.prototype.sort` treats
as `0` (keep the relative order). -/
def runGe (a b : LiveTrainDelta) : Prop :=
  match a.lastUpdated, b.lastUpdated with
  | .fin x, .fin y => y ≤ x
  | _, _ => True

instance : DecidableRel runGe := fun a b => by
  unfold runGe
  exact match a.lastUpdated, b.lastUpdated with
  | .fin x, .fin y => inferInstanceAs (Decidable (y ≤ x))
  | .nan, .fin _ => inferInstanceAs (Decidable True)
  | .fin _, .nan => inferInstanceAs (Decidable True)
  | .nan, .nan => inferInstanceAs (Decidable True)

/-- `updateTrainWithDelta` from liveData.ts: re-derive the day number,
replace any run with the same delta identity, stably re-sort runs by
freshness, pick the selected run (`preferredRunId ?? train.selectedRunId ??
delta.id`, falling back to the freshest run), and recompute the derived
stops. -/
def updateTrainWithDelta (train : TrainWithRoute) (delta : LiveTrainDelta)
    (preferredRunId : Option String) : TrainWithRoute :=
  let dayNumber := deriveDayNumber train delta
  let normalizedDelta : LiveTrainDelta := { delta with dayNumber := dayNumber }
  let existingRuns := train.liveRuns.getD []
  let filteredRuns := existingRuns.filter (fun run => run.id ≠ normalizedDelta.id)
  let mergedRuns := List.insertionSort runGe (filteredRuns ++ [normalizedDelta])
  let desiredRunId := (preferredRunId.or train.selectedRunId).getD normalizedDelta.id
  let selectedRun :=
    ((mergedRuns.find? (fun run => run.id = desiredRunId)).or mergedRuns.head?).getD
      normalizedDelta
  let stops := computeStopsForRun train (some selectedRun)
  { train with
      IsLive := true
      liveRuns := some mergedRuns
      selectedRunId := some selectedRun.id
      livePosition := some selectedRun
      upcomingStop := stops.1
      previousStop := stops.2 }

/-- `applyRunSelectionToTrain` from liveData.ts. -/
def applyRunSelectionToTrain (train : TrainWithRoute) (runId : String) :
    TrainWithRoute :=
  match (train.liveRuns.getD []).find? (fun candidate => candidate.id = runId) with
  | none => train
  | some run =>
      let stops := computeStopsForRun train (some run)
      { train with
          IsLive := true
          selectedRunId := some run.id
          livePosition := some run
          upcomingStop := stops.1
          previousStop := stops.2 }

/-- `STALE_LIVE_RUN_TTL_MS` from dataLoader.ts: 10 minutes, in
milliseconds. -/
def STALE_LIVE_RUN_TTL_MS : ℚ := 10 * 60 * 1000

/-- `isRunFresh` from dataLoader.ts: `now - run.lastUpdated <= TTL`; a
comparison against a non-finite timestamp is false. -/
def isRunFresh (run : LiveTrainDelta) (now : ℚ) : Bool :=
  match run.lastUpdated with
  | .fin t => now - t ≤ STALE_LIVE_RUN_TTL_MS
  | .nan => false

/-- `sameStop` from dataLoader.ts. -/
def sameStop (a b : Option TrainStop) : Bool :=
  match a, b with
  | none, none => true
  | none, some _ => false
  | some _, none => false
  | some x, some y => x.StationId = y.StationId && x.OrderNumber = y.OrderNumber

/-- Falsiness of the `selectedRunId` field (`!train.selectedRunId`): absent
or the empty string. -/
def selectedRunIdFalsy : Option String → Bool
  | none => true
  | some s => s = ""

/-- `resetTrainLiveState` from dataLoader.ts: if there is no live state at
all, return the train unchanged; otherwise drop the live fields and restore
`upcomingStop` to the first scheduled stop (`train.route[0]`). -/
def resetTrainLiveState (train : TrainWithRoute) : TrainWithRoute :=
  if train.livePosition.isNone && (train.liveRuns.getD []).isEmpty
      && selectedRunIdFalsy train.selectedRunId && !train.IsLive then
    train
  else
    { train with
        IsLive := false
        livePosition := none
        liveRuns := none
        selectedRunId := none
        upcomingStop := train.route.head?
        previousStop := none }

/-- `sanitizeTrainLiveState` from dataLoader.ts: drop stale runs; if none
survive, reset the live state; otherwise re-select a run (the pinned one if
it survived, else the freshest), recompute the derived stops inline, and
rebuild the train only when something changed. -/
def sanitizeTrainLiveState (train : TrainWithRoute) (now : ℚ) : TrainWithRoute :=
  match train.liveRuns with
  | none => resetTrainLiveState train
  | some [] => resetTrainLiveState train
  | some runs =>
      let freshRuns := runs.filter (fun run => isRunFresh run now)
      match freshRuns with
      | [] => resetTrainLiveState train
      | f :: _ =>
          let selectedRun :=
            ((freshRuns.find? (fun run => some run.id = train.selectedRunId)).getD f)
          let upcomingStop := if numTruthy selectedRun.nextStationId then
              train.route.find? (fun s => jsEqNum selectedRun.nextStationId s.StationId)
            else none
          let previousStop := if numTruthy selectedRun.prevStationId then
              train.route.find? (fun s => jsEqNum selectedRun.prevStationId s.StationId)
            else none
          let requiresUpdate := freshRuns.length ≠ runs.length
            || train.selectedRunId ≠ some selectedRun.id
            || !sameStop train.upcomingStop upcomingStop
            || !sameStop train.previousStop previousStop
            || !train.IsLive
          if requiresUpdate then
            { train with
                IsLive := true
                liveRuns := some freshRuns
                selectedRunId := some selectedRun.id
                livePosition := some selectedRun
                upcomingStop := upcomingStop
                previousStop := previousStop }
          else train

/-- `stripStaleLiveData` from dataLoader.ts.  (The source additionally
returns the original array object when no element changed; that is an
allocation optimization with no observable value-level effect, so the model
is the plain map.) -/
def stripStaleLiveData (trains : List TrainWithRoute) (now : ℚ) : List TrainWithRoute :=
  trains.map (fun train => sanitizeTrainLiveState train now)

/-- `getTrainUniqueKey` from lib/train: `TrainId` plus the allocated date.
The source normalizes `AllocatedDate` through
`new Date(...).toISOString().split('T')[0]`; the key is only ever used for
map identity, so the date normalization is modelled as the raw string. -/
def getTrainUniqueKey (train : TrainWithRoute) : String :=
  toString train.TrainId ++ "-" ++
    (match train.AllocatedDate with
     | some s => if s = "" then "no-date" else s
     | none => "no-date")

/-- Accumulator of the cold-start replay loop in `applyStoredLiveDeltas`. -/
structure ReplayAcc where
  updatedTrains : List TrainWithRoute
  trainKeyToId : List (String × ℚ)
  selectedRunIds : List (String × String)

/-- One iteration of the `deltas.forEach` loop of `applyStoredLiveDeltas`
(dataLoader.ts lines 108-122). -/
def replayStep (acc : ReplayAcc) (delta : LiveTrainDelta) : ReplayAcc :=
  let targetTrainId :=
    (List.lookup delta.trainKey acc.trainKeyToId).or
      (findMatchingTrainId acc.updatedTrains delta)
  match targetTrainId with
  | some tid =>
      if tid = 0 then acc
      else
        let trainKeyToId := (delta.trainKey, tid) :: acc.trainKeyToId
        let updatedTrains := acc.updatedTrains.map (fun train =>
          if train.TrainId = tid then
            updateTrainWithDelta train delta
              (List.lookup (getTrainUniqueKey train) acc.selectedRunIds)
          else train)
        let selectedRunIds :=
          match updatedTrains.find? (fun t => t.TrainId = tid) with
          | some updatedTrain =>
              match updatedTrain.selectedRunId with
              | some s =>
                  if s = "" then acc.selectedRunIds
                  else (getTrainUniqueKey updatedTrain, s) :: acc.selectedRunIds
              | none => acc.selectedRunIds
          | none => acc.selectedRunIds
        { updatedTrains := updatedTrains, trainKeyToId := trainKeyToId,
          selectedRunIds := selectedRunIds }
  | none => acc

/-- `applyStoredLiveDeltas` from dataLoader.ts: replay the persisted deltas
(ordered by `lastUpdated` ascending, as delivered by the store) through the
live resolver and merger, then strip stale live data once.  `now` is the
sweep time (`Date.now()`). -/
def applyStoredLiveDeltas (staticTrains : List TrainWithRoute)
    (deltas : List LiveTrainDelta) (now : ℚ) : List TrainWithRoute :=
  if deltas.isEmpty then staticTrains
  else
    let final := deltas.foldl replayStep
      { updatedTrains := staticTrains, trainKeyToId := [], selectedRunIds := [] }
    stripStaleLiveData final.updatedTrains now

/-- `String(n)` applied to the train-number hint when caching resolver
results; the rendering only serves as a map key, so the exact digit format
is immaterial (both writer and reader use this same function). -/
def jsNumToString : JsNum → String
  | .nan => "NaN"
  | .fin q => toString q

/-- The slice of the zustand store state that `processDeltas` (main module)
reads and writes.  JS `Map`s are modelled as newest-first association
lists. -/
structure DeltaBatchState where
  trains : List TrainWithRoute
  liveDeltas : List (String × LiveTrainDelta)
  trainKeyToId : List (String × ℚ)
  selectedRunIds : List (ℚ × String)
  unresolvedDeltas : List (String × LiveTrainDelta)
deriving Repr

/-- The four-key cache consultation of `processDeltas`:
`trainKeyToId.get(delta.id) ?? .get(delta.trainKey) ?? .get(delta.variantKey)
?? (delta.trainNumber != null ? .get(String(delta.trainNumber)) : undefined)`. -/
def lookupMapped (m : List (String × ℚ)) (delta : LiveTrainDelta) : Option ℚ :=
  (List.lookup delta.id m).or
    ((List.lookup delta.trainKey m).or
      ((List.lookup delta.variantKey m).or
        (match delta.trainNumber with
         | some n => List.lookup (jsNumToString n) m
         | none => none)))

/-- JS `a || b` on `number | undefined`: `undefined` and `0` fall through. -/
def jsOrNum (a b : Option ℚ) : Option ℚ :=
  match a with
  | some q => if q = 0 then b else some q
  | none => b

/-- One iteration of the `deltas.forEach` loop of `processDeltas`
(main module lines 116-158), parameterized by the resolver so that
resolver-independence can be stated. -/
def processDeltasStep (resolve : List TrainWithRoute → LiveTrainDelta → Option ℚ)
    (state : DeltaBatchState) (delta : LiveTrainDelta) : DeltaBatchState :=
  let liveDeltas := (delta.trainKey, delta) :: state.liveDeltas
  let mappedTrainId := lookupMapped state.trainKeyToId delta
  let targetTrainId := jsOrNum mappedTrainId (resolve state.trains delta)
  match targetTrainId with
  | some tid =>
      if tid = 0 then
        { state with liveDeltas := liveDeltas,
                     unresolvedDeltas := (delta.id, delta) :: state.unresolvedDeltas }
      else
        let trainKeyToId :=
          match delta.trainNumber with
          | some n => (jsNumToString n, tid) :: (delta.variantKey, tid)
              :: (delta.trainKey, tid) :: (delta.id, tid) :: state.trainKeyToId
          | none => (delta.variantKey, tid) :: (delta.trainKey, tid)
              :: (delta.id, tid) :: state.trainKeyToId
        let trains := state.trains.map (fun train =>
          if train.TrainId = tid then
            updateTrainWithDelta train delta (List.lookup train.TrainId state.selectedRunIds)
          else train)
        let selectedRunIds :=
          match trains.find? (fun train => train.TrainId = tid) with
          | some updatedTrain =>
              match updatedTrain.selectedRunId with
              | some s => if s = "" then state.selectedRunIds
                  else (tid, s) :: state.selectedRunIds
              | none => state.selectedRunIds
          | none => state.selectedRunIds
        { trains := trains
          liveDeltas := liveDeltas
          trainKeyToId := trainKeyToId
          selectedRunIds := selectedRunIds
          unresolvedDeltas := state.unresolvedDeltas.filter (fun kv => kv.1 ≠ delta.id) }
  | none =>
      { state with liveDeltas := liveDeltas,
                   unresolvedDeltas := (delta.id, delta) :: state.unresolvedDeltas }

/-- `processDeltas` with an explicit resolver parameter. -/
def processDeltasWith (resolve : List TrainWithRoute → LiveTrainDelta → Option ℚ)
    (state : DeltaBatchState) (deltas : List LiveTrainDelta) : DeltaBatchState :=
  if deltas.isEmpty then state
  else deltas.foldl (processDeltasStep resolve) state

/-- `processDeltas` from the main module: the batch-application step of the
store, using the live resolver. -/
def processDeltas (state : DeltaBatchState) (deltas : List LiveTrainDelta) :
    DeltaBatchState :=
  processDeltasWith findMatchingTrainId state deltas

/-! ### Shared concrete fixtures for witnesses and counterexamples -/

/-- A static train with no live state and an empty route; fixture base. -/
def baseTrain : TrainWithRoute :=
  { TrainId := 1, TrainNumber := 5, TrainName := "Khyber Mail", IsLive := false,
    IsUp := true, LocomotiveNumber := none, AllocatedDate := none, route := [],
    upcomingStop := none, previousStop := none, livePosition := none,
    liveRuns := none, selectedRunId := none }

/-- A normalized delta with no optional evidence; fixture base. -/
def baseDelta : LiveTrainDelta :=
  { id := "k:v", trainKey := "k", variantKey := "v", locomitiveNo := none,
    lat := 1, lon := 2, lastUpdated := .fin 0, lateBy := none,
    nextStationId := none, nextStopName := none, prevStationId := none,
    speed := none, trainNumber := none, dayNumber := none,
    isTrainStation := false, isTrainStop := false, isFlagged := false,
    iconUrl := none, statusCode := none, direction := .unknown }

/-! ### C8 — the normalizer discards exactly the non-finite positions -/

/-- C8: `parseSocketPayload` returns `null` exactly when the parsed `lat` or
`lon` is non-finite, and every produced delta carries the finite parses of
both fields as its position. -/
theorem c8_discard_iff_nonfinite_position (tk vk : String) (p : SocketTrainPayload)
    (now : ℚ) :
    (parseSocketPayload tk vk p now = none ↔
      jsNumberOfField p.lat = JsNum.nan ∨ jsNumberOfField p.lon = JsNum.nan) ∧
    (∀ d, parseSocketPayload tk vk p now = some d →
      jsNumberOfField p.lat = JsNum.fin d.lat ∧ jsNumberOfField p.lon = JsNum.fin d.lon) := by
  unfold parseSocketPayload
  cases h1 : jsNumberOfField p.lat with
  | nan => cases h2 : jsNumberOfField p.lon <;> simp
  | fin la =>
      cases h2 : jsNumberOfField p.lon with
      | nan => simp
      | fin lo =>
          refine ⟨by simp, ?_⟩
          intro d hd
          simp only [Option.some.injEq] at hd
          subst hd
          exact ⟨rfl, rfl⟩

/-- Witness for C8: a payload with unparseable latitude is discarded, one
with finite coordinates is kept with those coordinates. -/
theorem c8_witness :
    parseSocketPayload "k" "v" { lat := some "abc", lon := some "2" } 0 = none := by
  exact (c8_discard_iff_nonfinite_position "k" "v"
    { lat := some "abc", lon := some "2" } 0).1.mpr (Or.inl (by decide))

/-! ### C9 — optional numeric fields of the produced delta -/

/-- Counterexample to C9 as stated: a payload with a finite position and a
present-but-unparseable `late_by` produces a delta whose `lateBy` is the
non-finite number `NaN`, not `null` and not a finite parse. -/
theorem c9_counterexample :
    (parseSocketPayload "k" "v"
        { lat := some "1", lon := some "2", late_by := some "abc" } 0).map
      LiveTrainDelta.lateBy = some (some JsNum.nan) := by
  decide

/-- C9 (amended): in every produced delta, `speed` is a finite parse or
`null`; `lateBy`, `nextStationId` and `prevStationId` are `null` when the
wire field is absent or empty, and otherwise carry the JS numeric parse of
the wire string — which is non-finite (`NaN`) when the string is
unparseable.  Parsing never throws (the normalizer is a total function). -/
theorem c9_numeric_fields (tk vk : String) (p : SocketTrainPayload) (now : ℚ)
    (d : LiveTrainDelta) (hd : parseSocketPayload tk vk p now = some d) :
    (d.speed = none ∨ ∃ q, d.speed = some (JsNum.fin q)) ∧
    (d.lateBy = if strTruthy p.late_by then some (jsNumberOfField p.late_by) else none) ∧
    (d.nextStationId = if strTruthy p.next_station then some (jsNumberOfField p.next_station) else none) ∧
    (d.prevStationId = if strTruthy p.prev_station then some (jsNumberOfField p.prev_station) else none) := by
  unfold parseSocketPayload at hd
  cases h1 : jsNumberOfField p.lat with
  | nan => rw [h1] at hd; cases hd
  | fin la =>
      cases h2 : jsNumberOfField p.lon with
      | nan => rw [h1, h2] at hd; cases hd
      | fin lo =>
          rw [h1, h2] at hd
          simp only [Option.some.injEq] at hd
          subst hd
          refine ⟨?_, rfl, rfl, rfl⟩
          cases hsp : strTruthy p.sp with
          | false => simp [hsp]
          | true =>
              cases hn : jsNumberOfField p.sp with
              | nan => simp [hsp, hn]
              | fin q => exact Or.inr ⟨q, by simp [hsp, hn]⟩

/-- Witness for C9 (amended): a concrete payload with a parseable `late_by`
and an unparseable `sp`. -/
theorem c9_witness :
    (({ baseDelta with lateBy := some (JsNum.fin 7) } : LiveTrainDelta).speed = none ∨
      ∃ q, ({ baseDelta with lateBy := some (JsNum.fin 7) } : LiveTrainDelta).speed
        = some (JsNum.fin q)) ∧
    (({ baseDelta with lateBy := some (JsNum.fin 7) } : LiveTrainDelta).lateBy =
      if strTruthy (some "7") then some (jsNumberOfField (some "7")) else none) ∧
    (({ baseDelta with lateBy := some (JsNum.fin 7) } : LiveTrainDelta).nextStationId =
      if strTruthy (none : Option String) then some (jsNumberOfField none) else none) ∧
    (({ baseDelta with lateBy := some (JsNum.fin 7) } : LiveTrainDelta).prevStationId =
      if strTruthy (none : Option String) then some (jsNumberOfField none) else none) :=
  c9_numeric_fields "k" "v"
    { lat := some "1", lon := some "2", late_by := some "7", sp := some "abc" } 0
    { baseDelta with lateBy := some (JsNum.fin 7) } (by decide)

/-! ### C2 — the train-number short-circuit -/

/-- Two distinct trains sharing `TrainNumber = 5`; fixture for C2. -/
def c2Trains : List TrainWithRoute :=
  [{ baseTrain with TrainId := 1, TrainNumber := 5 },
   { baseTrain with TrainId := 2, TrainNumber := 5 }]

/-- A delta whose only evidence is the train-number hint `5`; fixture for
C2. -/
def c2Delta : LiveTrainDelta := { baseDelta with trainNumber := some (JsNum.fin 5) }

/-- Counterexample to C2 as stated: two distinct trains share the hinted
`TrainNumber`, yet the resolver still short-circuits and returns the first
of them by number alone (it does not require uniqueness). -/
theorem c2_counterexample :
    (c2Trains.filter (fun t => t.TrainNumber = (5 : ℚ))).length = 2 ∧
    c2Trains.map TrainWithRoute.TrainId = [1, 2] ∧
    findMatchingTrainId c2Trains c2Delta = some 1 := by
  refine ⟨by decide, by decide, ?_⟩
  decide

/-- C2 (amended): whenever the delta carries a finite train-number hint and
at least one train matches it, the short-circuit returns the **first** train
in collection order whose `TrainNumber` equals the hint — regardless of how
many trains share that number — bypassing heuristic scoring. -/
theorem c2_first_number_match (trains : List TrainWithRoute) (delta : LiveTrainDelta)
    (n : ℚ) (t : TrainWithRoute)
    (h1 : delta.trainNumber = some (JsNum.fin n))
    (h2 : trains.find? (fun train => train.TrainNumber = n) = some t) :
    findMatchingTrainId trains delta = some t.TrainId := by
  unfold findMatchingTrainId numberMatch
  rw [h1]
  simp only [h2]

/-- Witness for C2 (amended), at the fixture where two trains share the
hinted number. -/
theorem c2_witness : findMatchingTrainId c2Trains c2Delta =
    some ({ baseTrain with TrainId := 1, TrainNumber := 5 } : TrainWithRoute).TrainId :=
  c2_first_number_match c2Trains c2Delta 5
    { baseTrain with TrainId := 1, TrainNumber := 5 } (by decide) (by decide)

/-! ### C1 — ties and near-ties resolve to unresolved -/

/-- C1: when the short-circuit does not settle the delta and the top score
among the surviving (positive-score) candidates is attained by at least two
of them — equivalently, the best score does not strictly exceed the
second-best — `findMatchingTrainId` returns `none`; it never picks among
tied candidates. -/
theorem c1_tie_is_unresolved (trains : List TrainWithRoute) (delta : LiveTrainDelta)
    (M : ℚ)
    (hsc : numberMatch trains delta = none)
    (hM : ∀ c ∈ scoredList trains delta, c.2 ≤ M)
    (hcount : 2 ≤ (scoredList trains delta).countP (fun c => decide (c.2 = M))) :
    findMatchingTrainId trains delta = none := by
  unfold findMatchingTrainId
  rw [hsc]
  simp only []
  have hlen : 2 ≤ (scoredList trains delta).length :=
    le_trans hcount (List.countP_le_length _)
  have hne : (scoredList trains delta).isEmpty = false := by
    cases h : scoredList trains delta with
    | nil => rw [h] at hlen; simp at hlen
    | cons a t => rfl
  rw [hne]
  simp only [Bool.false_eq_true, if_false]
  have hperm : List.Perm (List.insertionSort scoreGe (scoredList trains delta))
      (scoredList trains delta) :=
    List.perm_insertionSort _ _
  have hsort : List.Sorted scoreGe (List.insertionSort scoreGe (scoredList trains delta)) :=
    List.sorted_insertionSort scoreGe _
  cases hS : List.insertionSort scoreGe (scoredList trains delta) with
  | nil =>
      exfalso
      have hl2 : (scoredList trains delta).length = 0 := by
        rw [← hperm.length_eq, hS]
        rfl
      omega
  | cons best rest =>
      rw [hS] at hperm hsort
      have hbestL : best ∈ scoredList trains delta :=
        hperm.subset (List.mem_cons_self _ _)
      have h1 : best.2 ≤ M := hM best hbestL
      have h2 : M ≤ best.2 := by
        have hpos : 0 < (scoredList trains delta).countP (fun c => decide (c.2 = M)) := by
          omega
        obtain ⟨c, hcL, hcM⟩ := List.countP_pos_iff.mp hpos
        have hcM' : c.2 = M := of_decide_eq_true hcM
        have hcS : c ∈ best :: rest := hperm.mem_iff.mpr hcL
        rcases List.mem_cons.mp hcS with h | h
        · rw [← hcM', h]
        · have := List.rel_of_sorted_cons hsort c h
          rw [← hcM']
          exact this
      have hbM : best.2 = M := le_antisymm h1 h2
      have hposb : 0 < best.2 := by
        have hmf := List.mem_filter.mp hbestL
        exact of_decide_eq_true hmf.2
      dsimp only
      rw [if_neg (not_le.mpr hposb)]
      have htied :
          1 < ((best :: rest).filter (fun c => decide (c.2 = best.2))).length := by
        have heq : (fun c : TrainWithRoute × ℚ => decide (c.2 = best.2))
            = (fun c : TrainWithRoute × ℚ => decide (c.2 = M)) := by
          funext c
          rw [hbM]
        rw [← List.countP_eq_length_filter, heq, hperm.countP_eq]
        omega
      rw [if_pos htied]

/-- Two trains that both score `1` against the fixture delta (direction
evidence only); fixture for C1. -/
def c1Trains : List TrainWithRoute :=
  [{ baseTrain with TrainId := 1, TrainNumber := 11 },
   { baseTrain with TrainId := 2, TrainNumber := 12 }]

/-- A delta whose only evidence is an `up` direction hint; fixture for C1. -/
def c1Delta : LiveTrainDelta := { baseDelta with direction := Direction.up }

/-- Witness for C1: two candidates tie at the top score and resolution
fails. -/
theorem c1_witness : findMatchingTrainId c1Trains c1Delta = none := by
  refine c1_tie_is_unresolved c1Trains c1Delta 1 (by decide) ?_ ?_
  · intro c hc
    simp [scoredList, scoreCandidate, c1Trains, c1Delta, baseTrain, baseDelta,
      strTruthy, numTruthy, findStopByStationId] at hc
    rcases hc with h | h <;> simp [h]
  · simp [scoredList, scoreCandidate, c1Trains, c1Delta, baseTrain, baseDelta,
      strTruthy, numTruthy, findStopByStationId, List.countP_cons]

/-! ### C3 — the scoring formula -/

/-- Strict order on optional indices: both present and first strictly
smaller. -/
def optIdxLtB (a b : Option ℕ) : Bool :=
  match a, b with
  | some i, some j => i < j
  | _, _ => false

/-- The weight table exactly as the claim words it: +10 for an exact
locomotive-identifier match, +4 for the next-station id being found in the
route, +4 for the previous-station id, +1 more when both are found and the
previous station's route index precedes the next station's, +1 for a known
direction hint matching the direction flag, +0.5 for a case-insensitive
next-stop-name match against a route station name, else +0.25 for a
substring match against the train name. -/
def specScoreClaim (train : TrainWithRoute) (delta : LiveTrainDelta) : ℚ :=
  (if delta.locomitiveNo.isSome ∧ delta.locomitiveNo = train.LocomotiveNumber then 10 else 0)
  + (if ∃ stop ∈ train.route, delta.nextStationId = some (JsNum.fin stop.StationId) then 4 else 0)
  + (if ∃ stop ∈ train.route, delta.prevStationId = some (JsNum.fin stop.StationId) then 4 else 0)
  + (if (∃ stop ∈ train.route, delta.nextStationId = some (JsNum.fin stop.StationId)) ∧
        (∃ stop ∈ train.route, delta.prevStationId = some (JsNum.fin stop.StationId)) ∧
        optIdxLtB
          (train.route.findIdx? (fun stop => decide (delta.prevStationId = some (JsNum.fin stop.StationId))))
          (train.route.findIdx? (fun stop => decide (delta.nextStationId = some (JsNum.fin stop.StationId))))
      then 1 else 0)
  + (if delta.direction ≠ Direction.unknown ∧ train.IsUp = (delta.direction = Direction.up) then 1 else 0)
  + (match delta.nextStopName with
     | none => 0
     | some nm =>
        if ∃ stop ∈ train.route, strToLower stop.StationName = strToLower nm then 1/2
        else if strIncludes (strToLower train.TrainName) (strToLower nm) then 1/4
        else 0)

/-- Fixture train for the C3 counterexample: an empty-string locomotive
identifier. -/
def c3Train : TrainWithRoute := { baseTrain with LocomotiveNumber := some "" }

/-- Fixture delta for the C3 counterexample: an empty-string locomotive
identifier (a value the wire can deliver, kept verbatim by the
normalizer). -/
def c3Delta : LiveTrainDelta := { baseDelta with locomitiveNo := some "" }

/-- Counterexample to C3 as stated: both locomotive identifiers are present
and exactly equal (the empty string), so the claim's formula awards +10, but
the code's truthiness guard skips the branch and scores 0. -/
theorem c3_counterexample :
    scoreCandidate c3Train c3Delta = 0 ∧ specScoreClaim c3Train c3Delta = 10 ∧
    scoreCandidate c3Train c3Delta ≠ specScoreClaim c3Train c3Delta := by
  refine ⟨?_, ?_, ?_⟩ <;>
    simp [scoreCandidate, specScoreClaim, c3Train, c3Delta, baseTrain, baseDelta,
      strTruthy, numTruthy, optIdxLtB]

/-- The weight table as the code actually implements it: every condition is
additionally guarded by JS truthiness — locomotive identifiers must be
non-empty, station ids must be finite and non-zero, the next-stop-name hint
must be non-empty. -/
def specScoreAmended (train : TrainWithRoute) (delta : LiveTrainDelta) : ℚ :=
  (if delta.locomitiveNo ≠ none ∧ delta.locomitiveNo ≠ some ""
      ∧ delta.locomitiveNo = train.LocomotiveNumber then 10 else 0)
  + (if ∃ stop ∈ train.route, delta.nextStationId = some (JsNum.fin stop.StationId)
        ∧ stop.StationId ≠ 0 then 4 else 0)
  + (if ∃ stop ∈ train.route, delta.prevStationId = some (JsNum.fin stop.StationId)
        ∧ stop.StationId ≠ 0 then 4 else 0)
  + (if (∃ stop ∈ train.route, delta.nextStationId = some (JsNum.fin stop.StationId)
          ∧ stop.StationId ≠ 0) ∧
        (∃ stop ∈ train.route, delta.prevStationId = some (JsNum.fin stop.StationId)
          ∧ stop.StationId ≠ 0) ∧
        optIdxLtB
          (train.route.findIdx? (fun stop => decide (delta.prevStationId = some (JsNum.fin stop.StationId))))
          (train.route.findIdx? (fun stop => decide (delta.nextStationId = some (JsNum.fin stop.StationId))))
      then 1 else 0)
  + (if delta.direction ≠ Direction.unknown ∧ train.IsUp = (delta.direction = Direction.up) then 1 else 0)
  + (match delta.nextStopName with
     | none => 0
     | some nm =>
        if nm = "" then 0
        else if ∃ stop ∈ train.route, strToLower stop.StationName = strToLower nm then 1/2
        else if strIncludes (strToLower train.TrainName) (strToLower nm) then 1/4
        else 0)

/-- `findIdx?` finds an index exactly when some element satisfies the
predicate. -/
theorem findIdxIsSomeIff {α : Type} (p : α → Bool) (l : List α) :
    (l.findIdx? p).isSome = true ↔ ∃ x ∈ l, p x = true := by
  rw [Option.isSome_iff_ne_none, ne_eq, List.findIdx?_eq_none_iff]
  push_neg
  simp

/-- The truthiness-guarded stop lookup succeeds exactly on a route stop with
the delta's finite, non-zero station id. -/
theorem stopLookupIsSomeIff (r : List TrainStop) (a : Option JsNum) :
    (if numTruthy a then findStopByStationId r a else none).isSome = true
      ↔ ∃ stop ∈ r, a = some (JsNum.fin stop.StationId) ∧ stop.StationId ≠ 0 := by
  cases a with
  | none => simp [numTruthy]
  | some j =>
      cases j with
      | nan => simp [numTruthy]
      | fin q =>
          by_cases hq : q = 0
          · subst hq
            simp [numTruthy]
            intro x _ h
            exact h.symm
          · simp only [numTruthy, bne_iff_ne, ne_eq, hq, not_false_eq_true, if_true,
              findStopByStationId, if_pos]
            rw [List.find?_isSome]
            constructor
            · rintro ⟨stop, hmem, hstop⟩
              refine ⟨stop, hmem, ?_, ?_⟩
              · have : q = stop.StationId := by
                  simpa [jsEqNum] using hstop
                rw [this]
              · have : q = stop.StationId := by
                  simpa [jsEqNum] using hstop
                rw [← this]; exact hq
            · rintro ⟨stop, hmem, heq, hne⟩
              refine ⟨stop, hmem, ?_⟩
              simp only [Option.some.injEq, JsNum.fin.injEq] at heq
              simp [jsEqNum, heq]

/-- The locomotive addend: code truthiness guard versus amended claim
condition. -/
theorem locoScoreEq (t : TrainWithRoute) (d : LiveTrainDelta) :
    (if strTruthy d.locomitiveNo && strTruthy t.LocomotiveNumber
        && (d.locomitiveNo == t.LocomotiveNumber) then (10:ℚ) else 0)
    = (if d.locomitiveNo ≠ none ∧ d.locomitiveNo ≠ some ""
        ∧ d.locomitiveNo = t.LocomotiveNumber then 10 else 0) := by
  cases hd : d.locomitiveNo with
  | none => simp [strTruthy]
  | some s =>
      cases ht : t.LocomotiveNumber with
      | none => simp [strTruthy]
      | some s' =>
          by_cases h1 : s = s'
          · subst h1
            by_cases h2 : s = "" <;> simp [strTruthy, h2]
          · simp [strTruthy, h1]

/-- The station addend. -/
theorem stopScoreEq (r : List TrainStop) (a : Option JsNum) :
    (if (if numTruthy a then findStopByStationId r a else none).isSome then (4:ℚ) else 0)
    = (if ∃ stop ∈ r, a = some (JsNum.fin stop.StationId) ∧ stop.StationId ≠ 0 then 4 else 0) := by
  by_cases h : ∃ stop ∈ r, a = some (JsNum.fin stop.StationId) ∧ stop.StationId ≠ 0
  · rw [if_pos ((stopLookupIsSomeIff r a).mpr h), if_pos h]
  · rw [if_neg (fun hc => h ((stopLookupIsSomeIff r a).mp hc)), if_neg h]

/-- The claim-side station predicate agrees pointwise with the code's strict
equality test. -/
theorem specPredEq (a : Option JsNum) :
    (fun stop : TrainStop => decide (a = some (JsNum.fin stop.StationId)))
      = (fun stop => jsEqNum a stop.StationId) := by
  funext stop
  cases a with
  | none => simp [jsEqNum]
  | some j =>
      cases j with
      | nan => simp [jsEqNum]
      | fin x => simp [jsEqNum, eq_comm]

/-- The route-order addend. -/
theorem orderScoreEq (r : List TrainStop) (dn dp : Option JsNum) :
    (if ((if numTruthy dn then findStopByStationId r dn else none).isSome
        && (if numTruthy dp then findStopByStationId r dp else none).isSome) then
      (match r.findIdx? (fun stop => jsEqNum dn stop.StationId),
             r.findIdx? (fun stop => jsEqNum dp stop.StationId) with
       | some nextIndex, some prevIndex => if prevIndex < nextIndex then (1:ℚ) else 0
       | _, _ => 0)
     else 0)
    = (if (∃ stop ∈ r, dn = some (JsNum.fin stop.StationId) ∧ stop.StationId ≠ 0) ∧
          (∃ stop ∈ r, dp = some (JsNum.fin stop.StationId) ∧ stop.StationId ≠ 0) ∧
          optIdxLtB (r.findIdx? (fun stop => decide (dp = some (JsNum.fin stop.StationId))))
                    (r.findIdx? (fun stop => decide (dn = some (JsNum.fin stop.StationId)))) then 1 else 0) := by
  rw [specPredEq dn, specPredEq dp]
  by_cases hN : ∃ stop ∈ r, dn = some (JsNum.fin stop.StationId) ∧ stop.StationId ≠ 0
  · by_cases hP : ∃ stop ∈ r, dp = some (JsNum.fin stop.StationId) ∧ stop.StationId ≠ 0
    · have hbN : (if numTruthy dn then findStopByStationId r dn else none).isSome = true :=
        (stopLookupIsSomeIff r dn).mpr hN
      have hbP : (if numTruthy dp then findStopByStationId r dp else none).isSome = true :=
        (stopLookupIsSomeIff r dp).mpr hP
      rw [if_pos (by rw [hbN, hbP]; rfl)]
      have hiN : (r.findIdx? (fun stop => jsEqNum dn stop.StationId)).isSome = true := by
        rw [findIdxIsSomeIff]
        obtain ⟨stop, hmem, heq, _⟩ := hN
        exact ⟨stop, hmem, by simp [jsEqNum, heq]⟩
      have hiP : (r.findIdx? (fun stop => jsEqNum dp stop.StationId)).isSome = true := by
        rw [findIdxIsSomeIff]
        obtain ⟨stop, hmem, heq, _⟩ := hP
        exact ⟨stop, hmem, by simp [jsEqNum, heq]⟩
      obtain ⟨ni, hni⟩ := Option.isSome_iff_exists.mp hiN
      obtain ⟨pi, hpi⟩ := Option.isSome_iff_exists.mp hiP
      rw [hni, hpi]
      by_cases hlt : pi < ni
      · simp [hN, hP, optIdxLtB, hlt]
      · simp [hN, hP, optIdxLtB, hlt]
    · have hbP : (if numTruthy dp then findStopByStationId r dp else none).isSome = false := by
        cases h : (if numTruthy dp then findStopByStationId r dp else none).isSome
        · rfl
        · exact absurd ((stopLookupIsSomeIff r dp).mp h) hP
      rw [if_neg (by rw [hbP]; simp), if_neg (fun hc => hP hc.2.1)]
  · have hbN : (if numTruthy dn then findStopByStationId r dn else none).isSome = false := by
      cases h : (if numTruthy dn then findStopByStationId r dn else none).isSome
      · rfl
      · exact absurd ((stopLookupIsSomeIff r dn).mp h) hN
    rw [if_neg (by rw [hbN]; simp), if_neg (fun hc => hN hc.1)]

/-- The direction addend. -/
theorem dirScoreEq (isUp : Bool) (dir : Direction) :
    (match dir with
     | Direction.unknown => (0:ℚ)
     | d => if isUp = (d = Direction.up) then 1 else 0)
    = (if dir ≠ Direction.unknown ∧ isUp = (dir = Direction.up) then 1 else 0) := by
  cases dir <;> cases isUp <;> simp

/-- The next-stop-name addend. -/
theorem nameScoreEq (route : List TrainStop) (trainName : String) (nmo : Option String) :
    (match nmo with
     | none => (0:ℚ)
     | some nm =>
        if nm = "" then 0
        else if route.any (fun stop => strToLower stop.StationName == strToLower nm) then 1/2
        else if strIncludes (strToLower trainName) (strToLower nm) then 1/4
        else 0)
    = (match nmo with
       | none => 0
       | some nm =>
          if nm = "" then 0
          else if ∃ stop ∈ route, strToLower stop.StationName = strToLower nm then 1/2
          else if strIncludes (strToLower trainName) (strToLower nm) then 1/4
          else 0) := by
  cases nmo with
  | none => rfl
  | some nm =>
      by_cases h0 : nm = ""
      · simp [h0]
      · simp only [h0, if_false]
        by_cases hany : ∃ stop ∈ route, strToLower stop.StationName = strToLower nm
        · have hb : (route.any fun stop => strToLower stop.StationName == strToLower nm) = true := by
            rw [List.any_eq_true]
            obtain ⟨s, hs, he⟩ := hany
            exact ⟨s, hs, by simp [he]⟩
          rw [if_pos hb, if_pos hany]
        · have hb : ¬ ((route.any fun stop => strToLower stop.StationName == strToLower nm) = true) := by
            intro hc
            rw [List.any_eq_true] at hc
            obtain ⟨s, hs, he⟩ := hc
            exact hany ⟨s, hs, by simpa using he⟩
          rw [if_neg hb, if_neg hany]

/-- C3 (amended): the resolver's score is exactly the claim's weight table
with each condition additionally guarded by JS truthiness (non-empty
locomotive identifiers, finite non-zero station ids, non-empty name hint);
and whenever the heuristic path resolves, the returned train is a collection
member with strictly positive score (non-positive candidates are
discarded). -/
theorem c3_score_formula :
    (∀ train delta, scoreCandidate train delta = specScoreAmended train delta) ∧
    (∀ (trains : List TrainWithRoute) (delta : LiveTrainDelta) (tid : ℚ),
      numberMatch trains delta = none →
      findMatchingTrainId trains delta = some tid →
      ∃ t ∈ trains, t.TrainId = tid ∧ 0 < scoreCandidate t delta) := by
  constructor
  · intro train delta
    unfold scoreCandidate specScoreAmended
    dsimp only
    rw [locoScoreEq, stopScoreEq, stopScoreEq, orderScoreEq, dirScoreEq, nameScoreEq]
  · intro trains delta tid hsc hfind
    unfold findMatchingTrainId at hfind
    rw [hsc] at hfind
    dsimp only at hfind
    by_cases hE : (scoredList trains delta).isEmpty
    · rw [if_pos hE] at hfind
      cases hfind
    · rw [if_neg hE] at hfind
      cases hS : List.insertionSort scoreGe (scoredList trains delta) with
      | nil =>
          rw [hS] at hfind
          cases hfind
      | cons best rest =>
          rw [hS] at hfind
          dsimp only at hfind
          have hbest : best ∈ scoredList trains delta := by
            have hperm := List.perm_insertionSort scoreGe (scoredList trains delta)
            rw [hS] at hperm
            exact hperm.subset (List.mem_cons_self _ _)
          have hmf := List.mem_filter.mp hbest
          obtain ⟨t, ht, hpair⟩ := List.mem_map.mp hmf.1
          have hpos : 0 < best.2 := of_decide_eq_true hmf.2
          by_cases hb0 : best.2 ≤ 0
          · rw [if_pos hb0] at hfind
            cases hfind
          · rw [if_neg hb0] at hfind
            by_cases htied :
                1 < ((best :: rest).filter (fun c => decide (c.2 = best.2))).length
            · rw [if_pos htied] at hfind
              cases hfind
            · rw [if_neg htied] at hfind
              have hscore : scoreCandidate t delta = best.2 := by rw [← hpair]
              cases rest with
              | nil =>
                  have hid : best.1.TrainId = tid := by simpa using hfind
                  exact ⟨t, ht, by rw [← hid, ← hpair], by rw [hscore]; exact hpos⟩
              | cons second tail =>
                  dsimp only at hfind
                  by_cases hss : best.2 ≤ second.2
                  · rw [if_pos hss] at hfind
                    cases hfind
                  · rw [if_neg hss] at hfind
                    have hid : best.1.TrainId = tid := by simpa using hfind
                    exact ⟨t, ht, by rw [← hid, ← hpair], by rw [hscore]; exact hpos⟩

/-- Witness for C3 (amended): the formula agreement at the C1 fixture and a
successful heuristic resolution with positive score. -/
theorem c3_witness :
    scoreCandidate c3Train c3Delta = specScoreAmended c3Train c3Delta ∧
    ∃ t ∈ [{ baseTrain with TrainId := 1, TrainNumber := 11 }], t.TrainId = (1:ℚ)
      ∧ 0 < scoreCandidate t c1Delta := by
  constructor
  · exact c3_score_formula.1 c3Train c3Delta
  · refine c3_score_formula.2 [{ baseTrain with TrainId := 1, TrainNumber := 11 }]
      c1Delta 1 (by decide) ?_
    simp [findMatchingTrainId, numberMatch, scoredList, scoreCandidate, c1Delta,
      baseTrain, baseDelta, strTruthy, numTruthy, findStopByStationId, scoreGe]

/-! ### C4, C5, C7 — staleness sweep -/

/-- After a reset the run set is empty (the early return only fires when it
already was). -/
theorem resetRunsNil (train : TrainWithRoute) :
    (resetTrainLiveState train).liveRuns.getD [] = [] := by
  unfold resetTrainLiveState
  split
  · next h =>
      simp only [Bool.and_eq_true] at h
      exact List.isEmpty_iff.mp h.1.1.2
  · rfl

/-- Membership in the sanitized run set: exactly the fresh runs of the
original run set survive a sweep. -/
theorem sanitizeMemIff (train : TrainWithRoute) (now : ℚ) (r : LiveTrainDelta) :
    r ∈ (sanitizeTrainLiveState train now).liveRuns.getD []
      ↔ r ∈ train.liveRuns.getD [] ∧ isRunFresh r now = true := by
  unfold sanitizeTrainLiveState
  cases htr : train.liveRuns with
  | none => simp [resetRunsNil, htr]
  | some runs =>
      cases runs with
      | nil => simp [resetRunsNil, htr]
      | cons a as =>
          dsimp only
          generalize hF : (a :: as).filter (fun run => isRunFresh run now) = F
          cases F with
          | nil =>
              simp only [resetRunsNil, List.not_mem_nil, false_iff, htr, Option.getD_some]
              rintro ⟨h1, h2⟩
              have hmF : r ∈ (a :: as).filter (fun run => isRunFresh run now) :=
                List.mem_filter.mpr ⟨h1, h2⟩
              rw [hF] at hmF
              cases hmF
          | cons f fs =>
              dsimp only
              rw [apply_ite TrainWithRoute.liveRuns, htr]
              dsimp only
              rw [apply_ite (fun o : Option (List LiveTrainDelta) => r ∈ o.getD [])]
              simp only [Option.getD_some]
              have hiff1 : r ∈ f :: fs ↔ (r ∈ a :: as ∧ isRunFresh r now = true) := by
                rw [← hF, List.mem_filter]
              by_cases hlen :
                  ((a :: as).filter (fun run => isRunFresh run now)).length = (a :: as).length
              · have hall := List.filter_length_eq_length.mp hlen
                have hiff2 : r ∈ a :: as ↔ (r ∈ a :: as ∧ isRunFresh r now = true) := by
                  constructor
                  · intro h
                    exact ⟨h, hall r h⟩
                  · exact fun h => h.1
                rw [hiff1, ← hiff2, ite_self]
              · have hdec : decide (((a :: as).filter (fun run => isRunFresh run now)).length
                    ≠ (a :: as).length) = true := decide_eq_true hlen
                rw [hF] at hdec
                rw [hdec]
                simp only [Bool.true_or, if_true]
                exact hiff1

/-- C4: with TTL = 10 minutes, a run last updated `TTL + 1 ms` ago is evicted
by the sweep, and a run last updated `TTL - 1 ms` ago survives it. -/
theorem c4_ttl_eviction (train : TrainWithRoute) (now : ℚ) (r : LiveTrainDelta)
    (hmem : r ∈ train.liveRuns.getD []) :
    (r.lastUpdated = JsNum.fin (now - STALE_LIVE_RUN_TTL_MS - 1) →
      r ∉ (sanitizeTrainLiveState train now).liveRuns.getD []) ∧
    (r.lastUpdated = JsNum.fin (now - STALE_LIVE_RUN_TTL_MS + 1) →
      r ∈ (sanitizeTrainLiveState train now).liveRuns.getD []) := by
  constructor
  · intro hr hc
    have hfresh := ((sanitizeMemIff train now r).mp hc).2
    simp only [isRunFresh, hr, decide_eq_true_eq] at hfresh
    have : (0:ℚ) < 1 := by norm_num
    linarith
  · intro hr
    refine (sanitizeMemIff train now r).mpr ⟨hmem, ?_⟩
    simp only [isRunFresh, hr, decide_eq_true_eq]
    have : (0:ℚ) < 1 := by norm_num
    linarith

/-- A run whose timestamp is exactly one millisecond beyond the TTL;
fixture for C4. -/
def c4StaleRun : LiveTrainDelta := { baseDelta with lastUpdated := JsNum.fin (-1) }

/-- A run whose timestamp is one millisecond inside the TTL; fixture for
C4. -/
def c4FreshRun : LiveTrainDelta :=
  { baseDelta with
      id := "k2:v2"
      trainKey := "k2"
      variantKey := "v2"
      lastUpdated := JsNum.fin 1 }

/-- A train carrying both C4 fixture runs. -/
def c4Train : TrainWithRoute :=
  { baseTrain with liveRuns := some [c4StaleRun, c4FreshRun] }

/-- Witness for C4 at `now = TTL + 1`: the stale run is gone, the fresh one
remains. -/
theorem c4_witness :
    c4StaleRun ∉ (sanitizeTrainLiveState c4Train STALE_LIVE_RUN_TTL_MS).liveRuns.getD [] ∧
    c4FreshRun ∈ (sanitizeTrainLiveState c4Train STALE_LIVE_RUN_TTL_MS).liveRuns.getD [] :=
  ⟨(c4_ttl_eviction c4Train STALE_LIVE_RUN_TTL_MS c4StaleRun (by decide)).1
      (by simp [c4StaleRun, baseDelta]),
   (c4_ttl_eviction c4Train STALE_LIVE_RUN_TTL_MS c4FreshRun (by decide)).2
      (by simp [c4FreshRun, baseDelta])⟩

/-- A route stop; fixture for C5. -/
def c5Stop : TrainStop :=
  { StationId := 17, StationName := "Lahore Junction", ArrivalTime := none,
    DepartureTime := none, DayCount := none, OrderNumber := 1 }

/-- A live train with a non-empty route and a single stale run; fixture for
C5. -/
def c5Train : TrainWithRoute :=
  { baseTrain with
      route := [c5Stop]
      IsLive := true
      liveRuns := some [c4StaleRun]
      livePosition := some c4StaleRun
      selectedRunId := some "k:v"
      upcomingStop := none }

/-- Counterexample to C5 as stated: sweeping away the train's last run does
empty the run set, but `upcomingStop` is not cleared — it is reset to the
first scheduled stop of the route. -/
theorem c5_counterexample :
    (sanitizeTrainLiveState c5Train STALE_LIVE_RUN_TTL_MS).liveRuns = none ∧
    (sanitizeTrainLiveState c5Train STALE_LIVE_RUN_TTL_MS).upcomingStop = some c5Stop := by
  constructor <;>
    simp [sanitizeTrainLiveState, resetTrainLiveState, c5Train, c4StaleRun, baseTrain,
      baseDelta, c5Stop, isRunFresh, selectedRunIdFalsy, STALE_LIVE_RUN_TTL_MS]

/-- C5 (amended): when a sweep finds a non-empty run set with no fresh run,
the result is exactly `resetTrainLiveState`: the is-live flag, the live
position, the run set, the selected run id and `previousStop` are all
cleared together in the same update, while `upcomingStop` is reset to the
train's first scheduled stop (absent only when the route is empty). -/
theorem c5_atomic_reset (train : TrainWithRoute) (now : ℚ)
    (h1 : train.liveRuns.getD [] ≠ [])
    (h2 : ∀ r ∈ train.liveRuns.getD [], isRunFresh r now = false) :
    sanitizeTrainLiveState train now = resetTrainLiveState train ∧
    (sanitizeTrainLiveState train now).IsLive = false ∧
    (sanitizeTrainLiveState train now).livePosition = none ∧
    (sanitizeTrainLiveState train now).liveRuns = none ∧
    (sanitizeTrainLiveState train now).selectedRunId = none ∧
    (sanitizeTrainLiveState train now).previousStop = none ∧
    (sanitizeTrainLiveState train now).upcomingStop = train.route.head? := by
  cases htr : train.liveRuns with
  | none => exact absurd (by rw [htr]; rfl) h1
  | some runs =>
      cases runs with
      | nil => exact absurd (by rw [htr]; rfl) h1
      | cons a as =>
          rw [htr] at h2
          have hF : (a :: as).filter (fun run => isRunFresh run now) = [] := by
            rw [List.filter_eq_nil_iff]
            intro x hx
            simp [h2 x hx]
          have hsan : sanitizeTrainLiveState train now = resetTrainLiveState train := by
            unfold sanitizeTrainLiveState
            rw [htr]
            dsimp only
            rw [hF]
          have hcond : (train.livePosition.isNone && (train.liveRuns.getD []).isEmpty
              && selectedRunIdFalsy train.selectedRunId && !train.IsLive) = false := by
            have : (train.liveRuns.getD []).isEmpty = false := by
              rw [htr]
              rfl
            simp [this]
          have hreset : resetTrainLiveState train =
              { train with
                  IsLive := false
                  livePosition := none
                  liveRuns := none
                  selectedRunId := none
                  upcomingStop := train.route.head?
                  previousStop := none } := by
            unfold resetTrainLiveState
            rw [hcond]
            simp
          rw [hsan, hreset]
          exact ⟨rfl, rfl, rfl, rfl, rfl, rfl, rfl⟩

/-- Witness for C5 (amended) at the C5 fixture. -/
theorem c5_witness :
    sanitizeTrainLiveState c5Train STALE_LIVE_RUN_TTL_MS = resetTrainLiveState c5Train ∧
    (sanitizeTrainLiveState c5Train STALE_LIVE_RUN_TTL_MS).IsLive = false ∧
    (sanitizeTrainLiveState c5Train STALE_LIVE_RUN_TTL_MS).livePosition = none ∧
    (sanitizeTrainLiveState c5Train STALE_LIVE_RUN_TTL_MS).liveRuns = none ∧
    (sanitizeTrainLiveState c5Train STALE_LIVE_RUN_TTL_MS).selectedRunId = none ∧
    (sanitizeTrainLiveState c5Train STALE_LIVE_RUN_TTL_MS).previousStop = none ∧
    (sanitizeTrainLiveState c5Train STALE_LIVE_RUN_TTL_MS).upcomingStop = c5Train.route.head? :=
  c5_atomic_reset c5Train STALE_LIVE_RUN_TTL_MS (by decide)
    (by
      intro r hr
      simp only [c5Train, c4StaleRun, baseDelta, baseTrain, Option.getD_some,
        List.mem_singleton] at hr
      subst hr
      simp [isRunFresh, STALE_LIVE_RUN_TTL_MS])

/-- Every run surviving a sweep is fresh. -/
theorem sanitizeRunsFresh (train : TrainWithRoute) (now : ℚ) :
    ∀ r ∈ (sanitizeTrainLiveState train now).liveRuns.getD [], isRunFresh r now = true :=
  fun r hr => ((sanitizeMemIff train now r).mp hr).2

/-- Cold-start replay never leaves a run with the identity and timestamp of
a persisted delta that is older than the TTL (helper for C7, universally
quantified form). -/
theorem noStaleRunSurvives (staticTrains : List TrainWithRoute)
    (deltas : List LiveTrainDelta) (now : ℚ) (d : LiveTrainDelta) (td : ℚ)
    (hd : d ∈ deltas) (ht : d.lastUpdated = JsNum.fin td)
    (hstale : STALE_LIVE_RUN_TTL_MS < now - td) :
    ∀ t ∈ applyStoredLiveDeltas staticTrains deltas now,
      ∀ r ∈ t.liveRuns.getD [], ¬(r.id = d.id ∧ r.lastUpdated = d.lastUpdated) := by
  intro t htm r hrm hc
  unfold applyStoredLiveDeltas at htm
  have hne : deltas.isEmpty = false := by
    cases deltas with
    | nil => cases hd
    | cons x xs => rfl
  rw [hne] at htm
  simp only [Bool.false_eq_true, if_false] at htm
  unfold stripStaleLiveData at htm
  obtain ⟨t0, _, hmap⟩ := List.mem_map.mp htm
  subst hmap
  have hfresh := sanitizeRunsFresh t0 now r hrm
  have hr2 : r.lastUpdated = JsNum.fin td := by rw [hc.2, ht]
  unfold isRunFresh at hfresh
  rw [hr2] at hfresh
  simp only [decide_eq_true_eq] at hfresh
  linarith

/-- C7: cold-start replay of the persisted delta set, which ends with one
staleness sweep, never resurrects data older than the TTL — for every
persisted delta whose timestamp lies more than TTL (10 minutes) before
`now` (e.g. fifteen minutes old), no train of the resulting dataset carries
a run with that delta's identity and timestamp. -/
theorem c7_no_resurrection (staticTrains : List TrainWithRoute)
    (deltas : List LiveTrainDelta) (now : ℚ) (d : LiveTrainDelta) (td : ℚ)
    (hd : d ∈ deltas) (ht : d.lastUpdated = JsNum.fin td)
    (hstale : STALE_LIVE_RUN_TTL_MS < now - td) :
    (applyStoredLiveDeltas staticTrains deltas now).all
      (fun t => (t.liveRuns.getD []).all
        (fun r => !(r.id == d.id && r.lastUpdated == d.lastUpdated))) = true := by
  rw [List.all_eq_true]
  intro t htm
  rw [List.all_eq_true]
  intro r hrm
  have hno := noStaleRunSurvives staticTrains deltas now d td hd ht hstale t htm r hrm
  rcases not_and_or.mp hno with h | h <;> simp [h]

/-- A persisted delta fifteen minutes old; fixture for C7. -/
def c7Delta : LiveTrainDelta := { baseDelta with lastUpdated := JsNum.fin 0 }

/-- Witness for C7: replaying one fifteen-minute-old delta onto a fresh
dataset leaves no run of it anywhere. -/
theorem c7_witness :
    (applyStoredLiveDeltas [baseTrain] [c7Delta] (15 * 60 * 1000)).all
      (fun t => (t.liveRuns.getD []).all
        (fun r => !(r.id == c7Delta.id && r.lastUpdated == c7Delta.lastUpdated))) = true :=
  c7_no_resurrection [baseTrain] [c7Delta] (15 * 60 * 1000) c7Delta 0
    (by decide) (by decide) (by simp [STALE_LIVE_RUN_TTL_MS]; decide)

/-! ### C10 — the identity cache bypasses the resolver -/

/-- C10: when any of the four cache keys (full id, trainKey, variantKey,
stringified train number) is already mapped to a (non-zero) train id, the
batch step attributes the delta to that cached id and is independent of the
resolver — the whole per-delta transition is the same for every resolver
function, and the cached train is the one updated. -/
theorem c10_cache_bypasses_resolver (state : DeltaBatchState) (delta : LiveTrainDelta)
    (q : ℚ) (hm : lookupMapped state.trainKeyToId delta = some q) (hq : q ≠ 0) :
    (∀ resolve : List TrainWithRoute → LiveTrainDelta → Option ℚ,
      jsOrNum (lookupMapped state.trainKeyToId delta)
        (resolve state.trains delta) = some q) ∧
    (∀ resolve resolve' : List TrainWithRoute → LiveTrainDelta → Option ℚ,
      processDeltasStep resolve state delta = processDeltasStep resolve' state delta) ∧
    (∀ resolve : List TrainWithRoute → LiveTrainDelta → Option ℚ,
      (processDeltasStep resolve state delta).trains =
      state.trains.map (fun train =>
        if train.TrainId = q then
          updateTrainWithDelta train delta (List.lookup train.TrainId state.selectedRunIds)
        else train)) := by
  have hj : ∀ b, jsOrNum (some q) b = some q := by
    intro b
    simp [jsOrNum, hq]
  refine ⟨fun resolve => by rw [hm]; exact hj _, ?_, ?_⟩
  · intro r1 r2
    unfold processDeltasStep
    rw [hm]
    dsimp only
    rw [hj, hj]
  · intro resolve
    unfold processDeltasStep
    rw [hm]
    dsimp only
    rw [hj]
    dsimp only
    rw [if_neg hq]

/-- A batch state whose cache maps the delta's variantKey to train 1;
fixture for C10. -/
def c10State : DeltaBatchState :=
  { trains := [baseTrain], liveDeltas := [], trainKeyToId := [("v", 1)],
    selectedRunIds := [], unresolvedDeltas := [] }

/-- Witness for C10 at the fixture: the variantKey alone is cached, the
delta is attributed to train 1 for every resolver, and the step is
resolver-independent. -/
theorem c10_witness :
    (∀ resolve : List TrainWithRoute → LiveTrainDelta → Option ℚ,
      jsOrNum (lookupMapped c10State.trainKeyToId baseDelta)
        (resolve c10State.trains baseDelta) = some 1) ∧
    (∀ resolve resolve' : List TrainWithRoute → LiveTrainDelta → Option ℚ,
      processDeltasStep resolve c10State baseDelta = processDeltasStep resolve' c10State baseDelta) ∧
    (∀ resolve : List TrainWithRoute → LiveTrainDelta → Option ℚ,
      (processDeltasStep resolve c10State baseDelta).trains =
      c10State.trains.map (fun train =>
        if train.TrainId = 1 then
          updateTrainWithDelta train baseDelta (List.lookup train.TrainId c10State.selectedRunIds)
        else train)) :=
  c10_cache_bypasses_resolver c10State baseDelta 1 (by decide) (by decide)

/-! ### C6 — idempotence of the run merger

The JS `Array.prototype.sort` comparator `(a, b) => b.lastUpdated -
a.lastUpdated` defines, for finite timestamps, the total preorder `runGe`;
the sort is stable.  The lemmas below establish the stable-sort algebra
needed for idempotence: sorting commutes with filtering, and appending the
freshly inserted element before sorting is the same as inserting it after
all elements of greater-or-equal key ("last among equals", stability for an
element that arrives last). -/

section StableSortLemmas

variable {α : Type} (key : α → ℚ)

/-- Descending comparison induced by a rational key. -/
def keyGe (a b : α) : Prop := key b ≤ key a

instance : DecidableRel (keyGe key) := fun a b => inferInstanceAs (Decidable (key b ≤ key a))

instance : IsTotal α (keyGe key) := ⟨fun a b => le_total (key b) (key a)⟩

instance : IsTrans α (keyGe key) := ⟨fun _ _ _ h1 h2 => le_trans h2 h1⟩

/-- Insert `x` after every element of greater-or-equal key: the position a
stable descending sort gives an element appearing last in its input. -/
def insertLast (x : α) (l : List α) : List α :=
  l.takeWhile (fun y => decide (key x ≤ key y)) ++ x :: l.dropWhile (fun y => decide (key x ≤ key y))

theorem orderedInsert_insertLast (x y : α) (L : List α) :
    List.orderedInsert (keyGe key) y (insertLast key x L)
      = insertLast key x (List.orderedInsert (keyGe key) y L) := by
  induction L with
  | nil =>
      by_cases h : key x ≤ key y <;>
        simp [insertLast, List.orderedInsert, keyGe, h]
  | cons z L' ih =>
      by_cases hz : key x ≤ key z
      · by_cases hyz : key z ≤ key y
        · have hxy : key x ≤ key y := le_trans hz hyz
          simp [insertLast, List.orderedInsert, keyGe, hz, hyz, hxy,
            List.takeWhile_cons, List.dropWhile_cons]
        · simp only [insertLast, List.takeWhile_cons, List.dropWhile_cons, decide_eq_true_eq,
            hz, if_true, List.cons_append, List.orderedInsert, keyGe]
          rw [if_neg hyz, if_neg hyz]
          simp only [insertLast] at ih
          rw [ih]
          simp [List.takeWhile_cons, List.dropWhile_cons, hz]
      · by_cases hyz : key z ≤ key y
        · by_cases hxy : key x ≤ key y <;>
            simp [insertLast, List.orderedInsert, keyGe, hz, hyz, hxy,
              List.takeWhile_cons, List.dropWhile_cons]
        · have hxy : ¬ key x ≤ key y := by
            intro h
            have hzx : key z ≤ key x := le_of_not_le hz
            exact hyz (le_trans hzx h)
          simp [insertLast, List.orderedInsert, keyGe, hz, hyz, hxy,
            List.takeWhile_cons, List.dropWhile_cons]

theorem insertionSort_append_singleton (l : List α) (x : α) :
    List.insertionSort (keyGe key) (l ++ [x])
      = insertLast key x (List.insertionSort (keyGe key) l) := by
  induction l with
  | nil => simp [insertLast, List.insertionSort]
  | cons y t ih =>
      simp only [List.cons_append, List.insertionSort, List.append_eq, ih,
        orderedInsert_insertLast]

theorem filter_orderedInsert_pos (p : α → Bool) (x : α) (L : List α) (hx : p x = true)
    (hL : List.Sorted (keyGe key) L) :
    (List.orderedInsert (keyGe key) x L).filter p
      = List.orderedInsert (keyGe key) x (L.filter p) := by
  induction L with
  | nil => simp [hx]
  | cons y ys ih =>
      have hsort := List.sorted_cons.mp hL
      by_cases hr : keyGe key x y
      · cases hp : p y
        · simp only [List.orderedInsert, if_pos hr, List.filter_cons, hx, hp, if_true]
          cases hfy : ys.filter p with
          | nil => simp
          | cons z zs =>
              have hz : z ∈ ys.filter p := by
                rw [hfy]
                exact List.mem_cons_self _ _
              have hzge : keyGe key x z :=
                le_trans (hsort.1 z (List.mem_of_mem_filter hz)) hr
              simp [List.orderedInsert, hzge]
        · simp [List.orderedInsert, if_pos hr, List.filter_cons, hx, hp]
      · cases hp : p y
        · simp only [List.orderedInsert, if_neg hr, List.filter_cons, hp]
          exact ih hsort.2
        · simp only [List.orderedInsert, if_neg hr, List.filter_cons, hp, if_true]
          rw [ih hsort.2]

end StableSortLemmas

section StableSortLemmasB

variable {α : Type} (key : α → ℚ)

theorem filter_orderedInsert_neg (p : α → Bool) (x : α) (L : List α) (hx : p x = false) :
    (List.orderedInsert (keyGe key) x L).filter p = L.filter p := by
  rw [List.orderedInsert_eq_take_drop, List.filter_append, List.filter_cons, hx]
  simp only [Bool.false_eq_true, if_false]
  rw [← List.filter_append, List.takeWhile_append_dropWhile]

theorem filter_insertionSort (p : α → Bool) (l : List α) :
    (List.insertionSort (keyGe key) l).filter p
      = List.insertionSort (keyGe key) (l.filter p) := by
  induction l with
  | nil => rfl
  | cons x t ih =>
      cases hx : p x
      · simp only [List.insertionSort, List.filter_cons, hx, Bool.false_eq_true, if_false]
        rw [filter_orderedInsert_neg key p x _ hx, ih]
      · simp only [List.insertionSort, List.filter_cons, hx, if_true]
        rw [filter_orderedInsert_pos key p x _ hx (List.sorted_insertionSort _ t), ih]

theorem sortIdem (l : List α) :
    List.insertionSort (keyGe key) (List.insertionSort (keyGe key) l)
      = List.insertionSort (keyGe key) l :=
  (List.sorted_insertionSort (keyGe key) l).insertionSort_eq

end StableSortLemmasB

/-- `orderedInsert` only evaluates the relation between the inserted element
and list members. -/
theorem orderedInsertCongr {α : Type} {r s : α → α → Prop}
    [DecidableRel r] [DecidableRel s] (x : α) (L : List α)
    (h : ∀ b ∈ L, r x b ↔ s x b) :
    List.orderedInsert r x L = List.orderedInsert s x L := by
  induction L with
  | nil => rfl
  | cons y ys ih =>
      have h1 := h y (List.mem_cons_self _ _)
      by_cases hr : r x y
      · simp only [List.orderedInsert, if_pos hr, if_pos (h1.mp hr)]
      · simp only [List.orderedInsert, if_neg hr, if_neg (fun hs => hr (h1.mpr hs))]
        rw [ih (fun b hb => h b (List.mem_cons_of_mem _ hb))]

/-- `insertionSort` only evaluates the relation between list members. -/
theorem insertionSortCongr {α : Type} {r s : α → α → Prop}
    [DecidableRel r] [DecidableRel s] (l : List α)
    (h : ∀ a ∈ l, ∀ b ∈ l, r a b ↔ s a b) :
    List.insertionSort r l = List.insertionSort s l := by
  induction l with
  | nil => rfl
  | cons x t ih =>
      simp only [List.insertionSort]
      rw [ih (fun a ha b hb => h a (List.mem_cons_of_mem _ ha) b (List.mem_cons_of_mem _ hb))]
      apply orderedInsertCongr
      intro b hb
      have hbmem : b ∈ t := (List.mem_insertionSort _).mp hb
      exact h x (List.mem_cons_self _ _) b (List.mem_cons_of_mem _ hbmem)

/-- The finite value of a run's timestamp, the sort key of the run merger. -/
def runKey (r : LiveTrainDelta) : ℚ := r.lastUpdated.val

/-- On finite timestamps the JS comparator relation is the key order. -/
theorem runGe_iff_keyGe (a b : LiveTrainDelta)
    (ha : a.lastUpdated.isFinite = true) (hb : b.lastUpdated.isFinite = true) :
    runGe a b ↔ keyGe runKey a b := by
  unfold runGe keyGe runKey JsNum.val
  cases hA : a.lastUpdated with
  | nan => rw [hA] at ha; cases ha
  | fin x =>
      cases hB : b.lastUpdated with
      | nan => rw [hB] at hb; cases hb
      | fin y => simp

/-- Under finite timestamps the run sort is the key sort. -/
theorem sortRuns_eq_keySort (l : List LiveTrainDelta)
    (h : ∀ r ∈ l, r.lastUpdated.isFinite = true) :
    List.insertionSort runGe l = List.insertionSort (keyGe runKey) l :=
  insertionSortCongr l (fun a ha b hb => runGe_iff_keyGe a b (h a ha) (h b hb))

/-- Re-merging the freshly inserted run into the merged list (with its old
copy filtered out) reproduces the merged list: stable-sort algebra behind
idempotence. -/
theorem mergedRunsIdem (F : List LiveTrainDelta) (nd : LiveTrainDelta)
    (hF : ∀ r ∈ F, r.lastUpdated.isFinite = true)
    (hnd : nd.lastUpdated.isFinite = true)
    (hid : ∀ r ∈ F, (r.id ≠ nd.id)) :
    List.insertionSort runGe
      (((List.insertionSort runGe (F ++ [nd])).filter (fun run => run.id ≠ nd.id)) ++ [nd])
      = List.insertionSort runGe (F ++ [nd]) := by
  have hallF : ∀ r ∈ F ++ [nd], r.lastUpdated.isFinite = true := by
    intro r hr
    rcases List.mem_append.mp hr with h | h
    · exact hF r h
    · rw [List.mem_singleton.mp h]
      exact hnd
  rw [sortRuns_eq_keySort (F ++ [nd]) hallF]
  rw [filter_insertionSort]
  have hfilter : (F ++ [nd]).filter (fun run => decide (run.id ≠ nd.id)) = F := by
    rw [List.filter_append]
    have h1 : F.filter (fun run => decide (run.id ≠ nd.id)) = F :=
      List.filter_eq_self.mpr (fun a ha => decide_eq_true (hid a ha))
    have h2 : [nd].filter (fun run => decide (run.id ≠ nd.id)) = [] := by
      simp
    rw [h1, h2, List.append_nil]
  rw [hfilter]
  have hallS : ∀ r ∈ List.insertionSort (keyGe runKey) F ++ [nd],
      r.lastUpdated.isFinite = true := by
    intro r hr
    rcases List.mem_append.mp hr with h | h
    · exact hF r ((List.mem_insertionSort _).mp h)
    · rw [List.mem_singleton.mp h]
      exact hnd
  rw [sortRuns_eq_keySort _ hallS]
  rw [insertionSort_append_singleton, insertionSort_append_singleton, sortIdem]

/-- The normalized delta built inside `updateTrainWithDelta`. -/
def normalizedDeltaOf (train : TrainWithRoute) (delta : LiveTrainDelta) : LiveTrainDelta :=
  { delta with dayNumber := deriveDayNumber train delta }

/-- The merged run list built inside `updateTrainWithDelta`. -/
def mergedRunsOf (train : TrainWithRoute) (delta : LiveTrainDelta) : List LiveTrainDelta :=
  List.insertionSort runGe
    (((train.liveRuns.getD []).filter
        (fun run => run.id ≠ (normalizedDeltaOf train delta).id)) ++ [normalizedDeltaOf train delta])

/-- The selected run chosen inside `updateTrainWithDelta`. -/
def selectedRunOf (train : TrainWithRoute) (delta : LiveTrainDelta)
    (preferredRunId : Option String) : LiveTrainDelta :=
  (((mergedRunsOf train delta).find?
      (fun run => run.id
        = (preferredRunId.or train.selectedRunId).getD (normalizedDeltaOf train delta).id)).or
    (mergedRunsOf train delta).head?).getD (normalizedDeltaOf train delta)

/-- `updateTrainWithDelta`, written through the named components. -/
theorem updateTrainEq (train : TrainWithRoute) (delta : LiveTrainDelta)
    (preferredRunId : Option String) :
    updateTrainWithDelta train delta preferredRunId =
      { train with
          IsLive := true
          liveRuns := some (mergedRunsOf train delta)
          selectedRunId := some (selectedRunOf train delta preferredRunId).id
          livePosition := some (selectedRunOf train delta preferredRunId)
          upcomingStop :=
            (computeStopsForRun train (some (selectedRunOf train delta preferredRunId))).1
          previousStop :=
            (computeStopsForRun train (some (selectedRunOf train delta preferredRunId))).2 } :=
  rfl

/-- Re-running the selection with the selected run's own id pinned returns
the same run. -/
theorem selectAgain (M : List LiveTrainDelta) (nd : LiveTrainDelta) (d0 : String)
    (hM : M ≠ []) :
    ((M.find? (fun run => run.id
        = (((M.find? (fun run => run.id = d0)).or M.head?).getD nd).id)).or M.head?).getD nd
      = ((M.find? (fun run => run.id = d0)).or M.head?).getD nd := by
  cases hf : M.find? (fun run => run.id = d0) with
  | some r =>
      have hp := List.find?_some hf
      have hrid : r.id = d0 := by simpa using hp
      have hpred : (fun run : LiveTrainDelta => decide (run.id
          = (((some r).or M.head?).getD nd).id)) = (fun run => decide (run.id = d0)) := by
        funext run
        simp only [Option.or, Option.getD_some, hrid]
      rw [hpred, hf]
  | none =>
      cases M with
      | nil => exact absurd rfl hM
      | cons m ms =>
          have hfind : (m :: ms).find? (fun run => run.id
              = ((Option.or none (m :: ms).head?).getD nd).id) = some m := by
            apply List.find?_cons_of_pos
            simp [Option.or]
          rw [hfind]
          simp [Option.or]

/-- The merged run list is never empty (it contains the new run). -/
theorem mergedRunsNe (train : TrainWithRoute) (delta : LiveTrainDelta) :
    mergedRunsOf train delta ≠ [] := by
  unfold mergedRunsOf
  intro hc
  have hperm := List.perm_insertionSort runGe
    (((train.liveRuns.getD []).filter
        (fun run => run.id ≠ (normalizedDeltaOf train delta).id)) ++ [normalizedDeltaOf train delta])
  rw [hc] at hperm
  have := hperm.length_eq
  simp at this

/-- C6: merging the same delta twice in a row (same identity, same fields,
same preferred run) produces the same train view as merging it once — run
set, selected run id, live position and derived stops included.  Timestamps
are assumed finite: a `NaN` timestamp makes the JS sort comparator
inconsistent and the sort order implementation-defined, outside the data
model (every timestamp the normalizer stores for a delivered position is a
number, and the sweep evicts non-finite ones). -/
theorem c6_merge_idempotent (train : TrainWithRoute) (delta : LiveTrainDelta)
    (pref : Option String)
    (hd : delta.lastUpdated.isFinite = true)
    (hruns : ∀ r ∈ train.liveRuns.getD [], r.lastUpdated.isFinite = true) :
    updateTrainWithDelta (updateTrainWithDelta train delta pref) delta pref
      = updateTrainWithDelta train delta pref := by
  have h1 : normalizedDeltaOf (updateTrainWithDelta train delta pref) delta
      = normalizedDeltaOf train delta := rfl
  have h2 : mergedRunsOf (updateTrainWithDelta train delta pref) delta
      = mergedRunsOf train delta := by
    unfold mergedRunsOf
    rw [h1]
    have h3 : (updateTrainWithDelta train delta pref).liveRuns.getD []
        = mergedRunsOf train delta := rfl
    rw [h3]
    unfold mergedRunsOf
    refine mergedRunsIdem _ _
      (fun r hr => hruns r (List.mem_of_mem_filter hr)) hd (fun r hr => ?_)
    have hp := List.of_mem_filter hr
    simpa using hp
  have h5 : (updateTrainWithDelta train delta pref).selectedRunId
      = some (selectedRunOf train delta pref).id := rfl
  have h4 : selectedRunOf (updateTrainWithDelta train delta pref) delta pref
      = selectedRunOf train delta pref := by
    cases pref with
    | some p =>
        unfold selectedRunOf
        rw [h1, h2]
        simp only [Option.or, Option.getD_some]
    | none =>
        unfold selectedRunOf
        rw [h1, h2]
        simp only [Option.or, Option.getD_some]
        rw [h5]
        simp only [Option.getD_some]
        unfold selectedRunOf
        exact selectAgain (mergedRunsOf train delta) (normalizedDeltaOf train delta) _
          (mergedRunsNe train delta)
  have h6 : computeStopsForRun (updateTrainWithDelta train delta pref)
      (some (selectedRunOf train delta pref))
      = computeStopsForRun train (some (selectedRunOf train delta pref)) := rfl
  rw [updateTrainEq (updateTrainWithDelta train delta pref) delta pref, h2, h4, h6]
  rfl

/-- An existing run; fixture for C6. -/
def c6Run : LiveTrainDelta :=
  { baseDelta with
      id := "a:b"
      trainKey := "a"
      variantKey := "b"
      lastUpdated := JsNum.fin 5 }

/-- A train with one existing pinned run; fixture for C6. -/
def c6Train : TrainWithRoute :=
  { baseTrain with liveRuns := some [c6Run], selectedRunId := some "a:b" }

/-- A fresher delta for the same train; fixture for C6. -/
def c6Delta : LiveTrainDelta := { baseDelta with lastUpdated := JsNum.fin 9 }

/-- Witness for C6: merging the fixture delta twice equals merging it
once. -/
theorem c6_witness :
    updateTrainWithDelta (updateTrainWithDelta c6Train c6Delta none) c6Delta none
      = updateTrainWithDelta c6Train c6Delta none :=
  c6_merge_idempotent c6Train c6Delta none (by decide) (by decide)
